import Mathlib

/-
  Verification of planetaryum's extraction pipeline (src/planetaryum/extractors.py)
  against its natural-language specification.

  The embedding models JSON values, Python dict and exception semantics, the
  external image-codec collaborator (PIL) as an abstract structure, and the
  extractor classes and the `extract` generator as Lean functions.
-/

namespace Planetaryum

/-- A parsed JSON value, as produced by Python's json.load. -/
inductive JVal where
  | null : JVal
  | bool : Bool → JVal
  | num : Int → JVal
  | str : String → JVal
  | arr : List JVal → JVal
  | obj : List (String × JVal) → JVal

/-- Python exceptions relevant to this module.  `binasciiError` is what
base64.b64decode raises on corrupt input; `unidentifiedImageError` is what
PIL's Image.open raises on undecodable bytes; `jsonDecodeError` is the parse
error of json.load. -/
inductive PyErr where
  | keyError : String → PyErr
  | typeError : PyErr
  | attributeError : PyErr
  | jsonDecodeError : PyErr
  | binasciiError : PyErr
  | unidentifiedImageError : PyErr
  | runtimeError : PyErr
deriving DecidableEq

/-- Lookup in a Python dict (insertion-ordered association list): d.get(k). -/
def dictGet {α : Type} (d : List (String × α)) (k : String) : Option α :=
  (d.find? (fun p => p.1 == k)).map (fun p => p.2)

/-- Python dict assignment d[k] = v: updates an existing key in place
(keeping its position) or appends a new one. -/
def dictSet {α : Type} : List (String × α) → String → α → List (String × α)
  | [], k, v => [(k, v)]
  | (k1, v1) :: rest, k, v =>
      if k1 == k then (k1, v) :: rest else (k1, v1) :: dictSet rest k v

/-- A notebook document handle.  `raw` is the byte content of the stream
(read by BlobExtractor); `parsed` is the outcome of the external JSON parser
(json.load) on a fresh stream of that content. -/
structure NB where
  raw : List Nat
  parsed : Except PyErr JVal

/-- The image-codec collaborator (base64 module + PIL), as an abstract
interface: decode base64 text to bytes, open bytes as an image, resize with
thumbnail semantics, re-encode to PNG bytes, and base64-encode bytes. -/
structure Codec (Img : Type) where
  b64decode : String → Except PyErr (List Nat)
  imageOpen : List Nat → Except PyErr Img
  thumbnail : Img → Nat × Nat → Img
  savePNG : Img → List Nat
  b64encode : List Nat → String

/-- An extractor as configured: a name plus the __call__ transformation from
a freshly opened document stream and the document name to a result. -/
structure PyExtractor (ρ : Type) where
  name : String
  call : NB → String → Except PyErr ρ

/-- Extractor.__init__: the class name is the default when the name argument
is omitted or None. -/
def defaultedName (className : String) : Option String → String
  | none => className
  | some n => n

/-- JSONExtractor.__call__: json.load on the stream. -/
def jsonCall (nb : NB) (_nm : String) : Except PyErr JVal :=
  nb.parsed

/-- Construct a JSONExtractor. -/
def mkJSONExtractor (nm : Option String) : PyExtractor JVal :=
  { name := defaultedName "JSONExtractor" nm, call := jsonCall }

/-- The value passed as the thumbnails argument of MetadataExtractor.__init__:
a boolean or an explicit (width, height) pair. -/
inductive ThumbArg where
  | bool : Bool → ThumbArg
  | pair : Nat → Nat → ThumbArg

/-- The stored thumbnail configuration, as tested by `if self.thumbnails:`
(a pair is always truthy in Python, False is falsy). -/
inductive ThumbCfg where
  | disabled : ThumbCfg
  | enabled : Nat × Nat → ThumbCfg
deriving DecidableEq

/-- MetadataExtractor.__init__ handling of the thumbnails argument:
`if thumbnails is True: self.thumbnails = (200,200) else: self.thumbnails = thumbnails`. -/
def mkThumbCfg : ThumbArg → ThumbCfg
  | .bool true => .enabled (200, 200)
  | .bool false => .disabled
  | .pair w h => .enabled (w, h)

/-- `if type(data) is not list: data = [data]` — normalize a data value to a
list of payloads. -/
def payloadsOfValue : JVal → List JVal
  | .arr xs => xs
  | v => [v]

/-- ASCII lowering of one character, as Python str.lower acts on the ASCII
range that MIME-type keys are drawn from. -/
def lowerChar (ch : Char) : Char :=
  if 65 ≤ ch.toNat && ch.toNat ≤ 90 then Char.ofNat (ch.toNat + 32) else ch

/-- key.lower() for ASCII keys. -/
def lowerStr (s : String) : String :=
  String.mk (s.data.map lowerChar)

/-- `key.lower() in ('image/png', 'image/jpeg')`. -/
def imageKey (k : String) : Bool :=
  lowerStr k == "image/png" || lowerStr k == "image/jpeg"

/-- `out.get('output_type') == 'display_data'`. -/
def isDisplayData (kvs : List (String × JVal)) : Bool :=
  match dictGet kvs "output_type" with
  | some (.str s) => s == "display_data"
  | _ => false

def isRuntimeError : PyErr → Bool
  | .runtimeError => true
  | _ => false

/-- The try-block body: `Image.open(io.BytesIO(base64.b64decode(d)))`.
A non-string payload makes b64decode raise a TypeError. -/
def tryDecode {Img : Type} (c : Codec Img) : JVal → Except PyErr Img
  | .str s =>
      match c.b64decode s with
      | .error e => .error e
      | .ok bytes => c.imageOpen bytes
  | _ => .error .typeError

/-- Process one payload `d`: decode it inside `try ... except RuntimeError`,
then resize, save as PNG and build the data-URI string.  Only a RuntimeError
is caught (skipping the payload); every other exception propagates. -/
def processPayload {Img : Type} (c : Codec Img) (box : Nat × Nat) (d : JVal) :
    Except PyErr (Option String) :=
  match tryDecode c d with
  | .error e => if isRuntimeError e then .ok none else .error e
  | .ok t =>
      .ok (some ("data:image/png;base64," ++ c.b64encode (c.savePNG (c.thumbnail t box))))

/-- `for d in data:` — process payloads in order, collecting the thumbnails
of the payloads that were not skipped. -/
def processPayloads {Img : Type} (c : Codec Img) (box : Nat × Nat) :
    List JVal → Except PyErr (List String)
  | [] => .ok []
  | d :: ds =>
      match processPayload c box d with
      | .error e => .error e
      | .ok o =>
          match processPayloads c box ds with
          | .error e => .error e
          | .ok rest =>
              .ok (match o with
                   | some s => s :: rest
                   | none => rest)

/-- `for key, data in out.get('data', {}).items():` with the MIME-key filter. -/
def processItems {Img : Type} (c : Codec Img) (box : Nat × Nat) :
    List (String × JVal) → Except PyErr (List String)
  | [] => .ok []
  | (k, v) :: rest =>
      match (if imageKey k then processPayloads c box (payloadsOfValue v) else .ok []) with
      | .error e => .error e
      | .ok xs =>
          match processItems c box rest with
          | .error e => .error e
          | .ok ys => .ok (xs ++ ys)

/-- Process one output: only display_data outputs contribute; `.get` calls on
a non-dict raise an AttributeError, and `.items()` on a non-dict data value
also raises. -/
def processOutput {Img : Type} (c : Codec Img) (box : Nat × Nat) :
    JVal → Except PyErr (List String)
  | .obj kvs =>
      if isDisplayData kvs then
        match (dictGet kvs "data").getD (.obj []) with
        | .obj items => processItems c box items
        | _ => .error .attributeError
      else .ok []
  | _ => .error .attributeError

/-- `for out in cell.get('outputs', []):`. -/
def processOutputs {Img : Type} (c : Codec Img) (box : Nat × Nat) :
    List JVal → Except PyErr (List String)
  | [] => .ok []
  | out :: rest =>
      match processOutput c box out with
      | .error e => .error e
      | .ok xs =>
          match processOutputs c box rest with
          | .error e => .error e
          | .ok ys => .ok (xs ++ ys)

/-- Process one cell; a missing outputs key defaults to the empty list,
iterating a non-list outputs value raises a TypeError. -/
def processCell {Img : Type} (c : Codec Img) (box : Nat × Nat) :
    JVal → Except PyErr (List String)
  | .obj kvs =>
      match (dictGet kvs "outputs").getD (.arr []) with
      | .arr outs => processOutputs c box outs
      | _ => .error .typeError
  | _ => .error .attributeError

/-- `for cell in nb['cells']:`. -/
def processCells {Img : Type} (c : Codec Img) (box : Nat × Nat) :
    List JVal → Except PyErr (List String)
  | [] => .ok []
  | cell :: rest =>
      match processCell c box cell with
      | .error e => .error e
      | .ok xs =>
          match processCells c box rest with
          | .error e => .error e
          | .ok ys => .ok (xs ++ ys)

/-- The whole thumbnail loop: `nb['cells']` is an unguarded subscript, so a
missing cells key raises a KeyError and a non-list value a TypeError. -/
def computeThumbs {Img : Type} (c : Codec Img) (box : Nat × Nat) :
    JVal → Except PyErr (List String)
  | .obj kvs =>
      match dictGet kvs "cells" with
      | some (.arr cells) => processCells c box cells
      | some _ => .error .typeError
      | none => .error (.keyError "cells")
  | _ => .error .typeError

/-- MetadataExtractor.__call__.  The parsed document must be a dict for
`nb.get('metadata', {})`; with thumbnails enabled the metadata must itself be
a dict for the `meta['thumbs'] = []` assignment (checked before the cells
loop runs), and the in-place growth of the thumbs list is visible only
through the returned mapping, so the computed list is attached once known. -/
def metaCall {Img : Type} (c : Codec Img) (cfg : ThumbCfg) (nb : NB) (_nm : String) :
    Except PyErr JVal :=
  match nb.parsed with
  | .error e => .error e
  | .ok j =>
      match j with
      | .obj kvs =>
          let meta := (dictGet kvs "metadata").getD (.obj [])
          match cfg with
          | .disabled => .ok meta
          | .enabled box =>
              match meta with
              | .obj mkvs =>
                  match computeThumbs c box (.obj kvs) with
                  | .error e => .error e
                  | .ok ts => .ok (.obj (dictSet mkvs "thumbs" (.arr (ts.map .str))))
              | _ => .error .typeError
      | _ => .error .attributeError

/-- Construct a MetadataExtractor with a given codec, name argument and
thumbnails argument. -/
def mkMetadataExtractor {Img : Type} (c : Codec Img) (nm : Option String)
    (a : ThumbArg) : PyExtractor JVal :=
  { name := defaultedName "MetadataExtractor" nm, call := metaCall c (mkThumbCfg a) }

/-- BlobExtractor.__call__: nb.read() returns the raw bytes of the stream. -/
def blobCall (nb : NB) (_nm : String) : Except PyErr (List Nat) :=
  .ok nb.raw

/-- Construct a BlobExtractor. -/
def mkBlobExtractor (nm : Option String) : PyExtractor (List Nat) :=
  { name := defaultedName "BlobExtractor" nm, call := blobCall }

/-- A record value is either an extractor result or the document-name string
stored under the reserved name key. -/
def RecVal (ρ : Type) : Type := ρ ⊕ String

/-- The record dict built by the inner loop of extract:
`for e in extractors: with nb.open() as f: d[e.name] = e(f, name)`.
Each extractor is invoked on a fresh stream of the document (the immutable
NB content), and the first exception aborts the record. -/
def buildRecordAux {ρ : Type} (nb : NB) (nm : String) :
    List (PyExtractor ρ) → List (String × RecVal ρ) →
    Except PyErr (List (String × RecVal ρ))
  | [], d => .ok d
  | e :: es, d =>
      match e.call nb nm with
      | .error err => .error err
      | .ok r => buildRecordAux nb nm es (dictSet d e.name (Sum.inl r))

/-- One full record of extract: run every extractor, then `d['name'] = name`. -/
def buildRecord {ρ : Type} (es : List (PyExtractor ρ)) (nb : NB) (nm : String) :
    Except PyErr (List (String × RecVal ρ)) :=
  match buildRecordAux nb nm es [] with
  | .error err => .error err
  | .ok d => .ok (dictSet d "name" (Sum.inr nm))

/-- The whole generator run to exhaustion: the records yielded before the
first failure, and the exception (if any) that terminated the sequence. -/
def extractGen {ρ : Type} (es : List (PyExtractor ρ)) :
    List (NB × String) → List (List (String × RecVal ρ)) × Option PyErr
  | [] => ([], none)
  | (nb, nm) :: rest =>
      match buildRecord es nb nm with
      | .error e => ([], some e)
      | .ok r =>
          let (rs, err) := extractGen es rest
          (r :: rs, err)

/-- Consuming the first k elements of the lazy generator: the loop body runs
once per requested element, so extractors run only for the documents whose
records were actually requested. -/
def genTake {ρ : Type} (es : List (PyExtractor ρ)) :
    Nat → List (NB × String) → Except PyErr (List (List (String × RecVal ρ)))
  | 0, _ => .ok []
  | _ + 1, [] => .ok []
  | k + 1, (nb, nm) :: rest =>
      match buildRecord es nb nm with
      | .error e => .error e
      | .ok r =>
          match genTake es k rest with
          | .error e => .error e
          | .ok rs => .ok (r :: rs)

/-- Whether an Except value is a success. -/
def exceptOk {ε α : Type} : Except ε α → Bool
  | .ok _ => true
  | .error _ => false

/-- The success value of an Except, when there is one. -/
def exceptValue {ε α : Type} : Except ε α → Option α
  | .ok a => some a
  | .error _ => none

/-! Spec-side description of which payloads are considered for thumbnails,
written from the specification's words, to be compared with the code-side
traversal `computeThumbs`. -/

/-- The ordered outputs of a cell, empty when absent. -/
def cellOutputs : JVal → List JVal
  | .obj kvs =>
      match dictGet kvs "outputs" with
      | some (.arr outs) => outs
      | _ => []
  | _ => []

/-- Spec-side: the payloads of one output — only display_data outputs, only
data keys matching image/png or image/jpeg case-insensitively, each value
normalized to a sequence of payloads, in key order. -/
def outputCandidates : JVal → List JVal
  | .obj kvs =>
      if isDisplayData kvs then
        match (dictGet kvs "data").getD (.obj []) with
        | .obj items =>
            items.flatMap (fun kv => if imageKey kv.1 then payloadsOfValue kv.2 else [])
        | _ => []
      else []
  | _ => []

/-- Spec-side: all candidate payloads of a document, in cell order then
output order. -/
def candidatePayloads : JVal → List JVal
  | .obj kvs =>
      match dictGet kvs "cells" with
      | some (.arr cells) => cells.flatMap (fun c => (cellOutputs c).flatMap outputCandidates)
      | _ => []
  | _ => []

/-- An output is well formed when it is a mapping whose data value, if it is
inspected at all (display_data only), is itself a mapping. -/
def wfOutput : JVal → Bool
  | .obj kvs =>
      if isDisplayData kvs then
        match (dictGet kvs "data").getD (.obj []) with
        | .obj _ => true
        | _ => false
      else true
  | _ => false

/-- A cell is well formed when it is a mapping whose outputs value, if
present, is a sequence of well-formed outputs. -/
def wfCell : JVal → Bool
  | .obj kvs =>
      match dictGet kvs "outputs" with
      | some (.arr outs) => outs.all wfOutput
      | none => true
      | _ => false
  | _ => false

/-- A document is well formed for the thumbnail traversal when it is a
mapping with a cells sequence of well-formed cells. -/
def wfDoc : JVal → Bool
  | .obj kvs =>
      match dictGet kvs "cells" with
      | some (.arr cells) => cells.all wfCell
      | _ => false
  | _ => false

/-! Concrete fixtures used by witnesses and counterexample-style runs. -/

/-- A toy instantiation of the image-codec collaborator over Nat images:
the payload "corrupt" raises the binascii error that base64.b64decode raises
on invalid padding, the payload "badimage" decodes to bytes that Image.open
cannot identify, and every other payload decodes to a one-pixel image. -/
def toyCodec : Codec Nat :=
  { b64decode := fun s =>
      if s == "corrupt" then .error .binasciiError else .ok [s.length]
    imageOpen := fun bs =>
      if bs == [8] then .error .unidentifiedImageError else .ok (bs.headD 0)
    thumbnail := fun i _ => i + 100
    savePNG := fun i => [i]
    b64encode := fun bs => String.intercalate "," (bs.map toString) }

/-- A display_data output whose data maps one MIME key to one payload. -/
def mkOutput (key : String) (payload : JVal) : JVal :=
  .obj [("output_type", .str "display_data"), ("data", .obj [(key, payload)])]

/-- A cell with the given outputs. -/
def mkCell (outs : List JVal) : JVal :=
  .obj [("outputs", .arr outs)]

/-- The spec's failing document: one corrupt base64 payload under image/jpeg,
then one valid payload under image/png in a later cell. -/
def nbCorruptThenValid : NB :=
  { raw := []
    parsed := .ok (.obj
      [ ("metadata", .obj [("title", .str "t")])
      , ("cells", .arr
          [ mkCell [mkOutput "image/jpeg" (.str "corrupt")]
          , mkCell [mkOutput "image/png" (.str "good")]
          ]) ]) }

/-- A small well-formed notebook with no embedded images. -/
def nbPlain : NB :=
  { raw := [1, 2, 3]
    parsed := .ok (.obj
      [ ("metadata", .obj [("title", .str "plain"), ("thumbs", .str "stale")])
      , ("cells", .arr [mkCell []]) ]) }

/-- A well-formed notebook with a single valid image payload. -/
def nbOneImage : NB :=
  { raw := [7]
    parsed := .ok (.obj
      [ ("metadata", .obj [])
      , ("cells", .arr [mkCell [mkOutput "image/png" (.str "good")]]) ]) }

/-- A notebook whose content is not valid JSON. -/
def nbMalformed : NB :=
  { raw := [0], parsed := .error .jsonDecodeError }

/-! Dictionary lemmas. -/

theorem dictGet_nil {α : Type} (k : String) : dictGet ([] : List (String × α)) k = none :=
  rfl

theorem dictGet_cons {α : Type} (k1 : String) (v1 : α) (rest : List (String × α))
    (k : String) :
    dictGet ((k1, v1) :: rest) k = if k1 = k then some v1 else dictGet rest k := by
  by_cases h : k1 = k <;> simp [dictGet, h]

theorem dictSet_cons {α : Type} (k1 : String) (v1 : α) (rest : List (String × α))
    (k : String) (v : α) :
    dictSet ((k1, v1) :: rest) k v =
      if k1 = k then (k1, v) :: rest else (k1, v1) :: dictSet rest k v := by
  by_cases h : k1 = k <;> simp [dictSet, h]

theorem dictGet_dictSet_self {α : Type} (d : List (String × α)) (k : String) (v : α) :
    dictGet (dictSet d k v) k = some v := by
  induction d with
  | nil => simp [dictSet, dictGet_cons]
  | cons p rest ih =>
      obtain ⟨k1, v1⟩ := p
      by_cases h : k1 = k
      · subst h
        simp [dictSet_cons, dictGet_cons]
      · simp [dictSet_cons, h, dictGet_cons, ih]

theorem dictGet_dictSet_ne {α : Type} (d : List (String × α)) (k k1 : String) (v : α)
    (h : k1 ≠ k) : dictGet (dictSet d k v) k1 = dictGet d k1 := by
  induction d with
  | nil => simp [dictSet, dictGet_cons, dictGet_nil, Ne.symm h]
  | cons p rest ih =>
      obtain ⟨k2, v2⟩ := p
      by_cases h2 : k2 = k
      · subst h2
        simp [dictSet_cons, dictGet_cons, Ne.symm h]
      · simp [dictSet_cons, h2, dictGet_cons, ih]

/-! Claim theorems. -/

/-- Claim C1 (code bug evidence): the except clause in the thumbnail loop
catches only RuntimeError, but a corrupt base64 payload raises the binascii
error and undecodable image bytes raise the unidentified-image error, so a
single bad payload aborts the whole MetadataExtractor call instead of being
skipped; the document with one corrupt image/jpeg payload followed by one
valid image/png payload yields that error, not a one-entry thumbs list. -/
theorem corrupt_payload_aborts :
    metaCall toyCodec (.enabled (200, 200)) nbCorruptThenValid "nb" =
      .error .binasciiError ∧
    processPayload toyCodec (200, 200) (.str "badimage") =
      .error .unidentifiedImageError :=
  ⟨rfl, rfl⟩

/-- Claim C3: with thumbnails disabled, MetadataExtractor returns exactly the
parsed document's metadata field, or an empty mapping when absent. -/
theorem metadata_disabled_returns_field {Img : Type} (c : Codec Img) (nb : NB)
    (kvs : List (String × JVal)) (nm : String)
    (h : nb.parsed = .ok (.obj kvs)) :
    metaCall c .disabled nb nm = .ok ((dictGet kvs "metadata").getD (.obj [])) := by
  simp [metaCall, h]

/-- The parsed top-level mapping of nbPlain. -/
def nbPlainKvs : List (String × JVal) :=
  [ ("metadata", .obj [("title", .str "plain"), ("thumbs", .str "stale")])
  , ("cells", .arr [mkCell []]) ]

/-- Witness for C3 at a concrete notebook. -/
theorem metadata_disabled_returns_field_w :
    nbPlain.parsed = .ok (.obj nbPlainKvs) ∧
    metaCall toyCodec .disabled nbPlain "x" =
      .ok ((dictGet nbPlainKvs "metadata").getD (.obj [])) :=
  ⟨rfl, metadata_disabled_returns_field toyCodec nbPlain nbPlainKvs "x" rfl⟩

/-- Claim C5: a successfully decoded payload contributes exactly the data-URI
string built from the base64 encoding of the PNG re-encoding of the image
resized by the collaborator's thumbnail operation at the configured box; the
constructor maps boolean true to the (200, 200) box and uses an explicit pair
directly. -/
theorem thumbnail_entry_shape :
    (∀ (Img : Type) (c : Codec Img) (box : Nat × Nat) (d : JVal) (img : Img),
        tryDecode c d = .ok img →
        processPayload c box d =
          .ok (some ("data:image/png;base64," ++
                c.b64encode (c.savePNG (c.thumbnail img box))))) ∧
    mkThumbCfg (.bool true) = .enabled (200, 200) ∧
    (∀ w h : Nat, mkThumbCfg (.pair w h) = .enabled (w, h)) := by
  refine ⟨?_, rfl, fun w h => rfl⟩
  intro Img c box d img h
  simp [processPayload, h]

/-- Witness for C5 at the toy codec. -/
theorem thumbnail_entry_shape_w :
    tryDecode toyCodec (.str "good") = .ok 4 ∧
    processPayload toyCodec (3, 3) (.str "good") =
      .ok (some ("data:image/png;base64," ++
            toyCodec.b64encode (toyCodec.savePNG (toyCodec.thumbnail 4 (3, 3))))) :=
  ⟨rfl, thumbnail_entry_shape.1 Nat toyCodec (3, 3) (.str "good") 4 rfl⟩

/-- Claim C9: with thumbnails enabled, the returned metadata maps thumbs to
exactly the freshly computed list, overwriting any pre-existing thumbs value,
and maps every other key to its original value. -/
theorem thumbs_overwritten {Img : Type} (c : Codec Img) (box : Nat × Nat)
    (nb : NB) (nm : String) (kvs mkvs : List (String × JVal)) (ts : List String)
    (hp : nb.parsed = .ok (.obj kvs))
    (hm : (dictGet kvs "metadata").getD (.obj []) = .obj mkvs)
    (ht : computeThumbs c box (.obj kvs) = .ok ts) :
    metaCall c (.enabled box) nb nm =
      .ok (.obj (dictSet mkvs "thumbs" (.arr (ts.map .str)))) ∧
    dictGet (dictSet mkvs "thumbs" (.arr (ts.map .str))) "thumbs" =
      some (.arr (ts.map .str)) ∧
    ∀ k, k ≠ "thumbs" →
      dictGet (dictSet mkvs "thumbs" (.arr (ts.map .str))) k = dictGet mkvs k := by
  refine ⟨?_, dictGet_dictSet_self mkvs "thumbs" _,
    fun k hk => dictGet_dictSet_ne mkvs "thumbs" k _ hk⟩
  simp [metaCall, hp, hm, ht]

/-- Witness for C9: the stale thumbs value in nbPlain's metadata is replaced
by the freshly computed empty list while the title key is untouched. -/
theorem thumbs_overwritten_w :
    nbPlain.parsed = .ok (.obj nbPlainKvs) ∧
    (dictGet nbPlainKvs "metadata").getD (.obj []) =
      .obj [("title", JVal.str "plain"), ("thumbs", JVal.str "stale")] ∧
    computeThumbs toyCodec (10, 10) (.obj nbPlainKvs) = .ok [] ∧
    metaCall toyCodec (.enabled (10, 10)) nbPlain "x" =
      .ok (.obj (dictSet [("title", JVal.str "plain"), ("thumbs", JVal.str "stale")]
            "thumbs" (.arr (([] : List String).map JVal.str)))) ∧
    dictGet (dictSet [("title", JVal.str "plain"), ("thumbs", JVal.str "stale")]
        "thumbs" (.arr (([] : List String).map JVal.str))) "title" =
      dictGet [("title", JVal.str "plain"), ("thumbs", JVal.str "stale")] "title" := by
  refine ⟨rfl, rfl, rfl, ?hc, ?hf⟩
  case hc =>
    exact (thumbs_overwritten toyCodec (10, 10) nbPlain "x" nbPlainKvs _ [] rfl rfl rfl).1
  case hf =>
    exact (thumbs_overwritten toyCodec (10, 10) nbPlain "x" nbPlainKvs _ [] rfl rfl
      rfl).2.2 "title" (by decide)

/-- Claim C10: the cells subscript is unguarded (a parsed mapping without a
cells key raises KeyError instead of returning the metadata), while a missing
outputs sequence, a missing output_type, and a missing data mapping are all
tolerated via defaults and contribute no thumbnails. -/
theorem cells_subscript_unguarded :
    (∀ (Img : Type) (c : Codec Img) (box : Nat × Nat) (nb : NB) (nm : String)
        (kvs mkvs : List (String × JVal)),
        nb.parsed = .ok (.obj kvs) →
        (dictGet kvs "metadata").getD (.obj []) = .obj mkvs →
        dictGet kvs "cells" = none →
        metaCall c (.enabled box) nb nm = .error (.keyError "cells")) ∧
    (∀ (Img : Type) (c : Codec Img) (box : Nat × Nat) (kvs : List (String × JVal)),
        dictGet kvs "outputs" = none → processCell c box (.obj kvs) = .ok []) ∧
    (∀ (Img : Type) (c : Codec Img) (box : Nat × Nat) (kvs : List (String × JVal)),
        dictGet kvs "output_type" = none → processOutput c box (.obj kvs) = .ok []) ∧
    (∀ (Img : Type) (c : Codec Img) (box : Nat × Nat) (kvs : List (String × JVal)),
        isDisplayData kvs = true → dictGet kvs "data" = none →
        processOutput c box (.obj kvs) = .ok []) := by
  refine ⟨?h1, ?h2, ?h3, ?h4⟩
  case h1 =>
    intro Img c box nb nm kvs mkvs hp hm hc
    simp [metaCall, hp, hm, computeThumbs, hc]
  case h2 =>
    intro Img c box kvs h
    simp [processCell, h, processOutputs]
  case h3 =>
    intro Img c box kvs h
    simp [processOutput, isDisplayData, h]
  case h4 =>
    intro Img c box kvs hd h
    simp [processOutput, hd, h, processItems]

/-! Claim C4: the code-side traversal processes exactly the spec-side
candidate payloads, in order. -/

theorem processPayloads_append {Img : Type} (c : Codec Img) (box : Nat × Nat)
    (xs ys : List JVal) :
    processPayloads c box (xs ++ ys) =
      match processPayloads c box xs with
      | .error e => .error e
      | .ok a =>
          match processPayloads c box ys with
          | .error e => .error e
          | .ok b => .ok (a ++ b) := by
  induction xs with
  | nil =>
      cases h : processPayloads c box ys <;> simp [processPayloads, h]
  | cons d xs ih =>
      simp only [List.cons_append, processPayloads, List.append_eq]
      cases hd : processPayload c box d with
      | error e => rfl
      | ok o =>
          rw [ih]
          cases hx : processPayloads c box xs with
          | error e => rfl
          | ok a =>
              cases hy : processPayloads c box ys with
              | error e => rfl
              | ok b => cases o <;> rfl

theorem processItems_eq_candidates {Img : Type} (c : Codec Img) (box : Nat × Nat)
    (items : List (String × JVal)) :
    processItems c box items =
      processPayloads c box
        (items.flatMap (fun kv => if imageKey kv.1 then payloadsOfValue kv.2 else [])) := by
  induction items with
  | nil => rfl
  | cons kv rest ih =>
      obtain ⟨k, v⟩ := kv
      simp only [List.flatMap_cons, processItems, processPayloads_append, ih]
      by_cases hk : imageKey k
      · simp only [hk, if_true]
      · simp only [hk, if_false, processPayloads]
        cases processPayloads c box
            (rest.flatMap fun kv => if imageKey kv.1 then payloadsOfValue kv.2 else []) <;>
          rfl

theorem processOutput_eq_candidates {Img : Type} (c : Codec Img) (box : Nat × Nat)
    (out : JVal) (h : wfOutput out = true) :
    processOutput c box out = processPayloads c box (outputCandidates out) := by
  cases out with
  | obj kvs =>
      simp only [processOutput, outputCandidates]
      by_cases hd : isDisplayData kvs
      · simp only [hd, if_true]
        cases hdata : (dictGet kvs "data").getD (.obj []) with
        | obj items => exact processItems_eq_candidates c box items
        | null | bool b | num n | str s | arr xs =>
            simp [wfOutput, hd, hdata] at h
      · simp [hd, processPayloads]
  | null | bool b | num n | str s | arr xs => simp [wfOutput] at h

theorem processOutputs_eq_candidates {Img : Type} (c : Codec Img) (box : Nat × Nat)
    (outs : List JVal) (h : outs.all wfOutput = true) :
    processOutputs c box outs = processPayloads c box (outs.flatMap outputCandidates) := by
  induction outs with
  | nil => rfl
  | cons out rest ih =>
      simp only [List.all_cons, Bool.and_eq_true] at h
      simp only [List.flatMap_cons, processOutputs, processPayloads_append,
        processOutput_eq_candidates c box out h.1, ih h.2]

theorem processCell_eq_candidates {Img : Type} (c : Codec Img) (box : Nat × Nat)
    (cell : JVal) (h : wfCell cell = true) :
    processCell c box cell =
      processPayloads c box ((cellOutputs cell).flatMap outputCandidates) := by
  cases cell with
  | obj kvs =>
      simp only [processCell, cellOutputs]
      cases houts : dictGet kvs "outputs" with
      | none => rfl
      | some v =>
          cases v with
          | arr outs =>
              refine processOutputs_eq_candidates c box outs ?_
              simpa [wfCell, houts] using h
          | null | bool b | num n | str s | obj o =>
              simp [wfCell, houts] at h
  | null | bool b | num n | str s | arr xs => simp [wfCell] at h

theorem processCells_eq_candidates {Img : Type} (c : Codec Img) (box : Nat × Nat)
    (cells : List JVal) (h : cells.all wfCell = true) :
    processCells c box cells =
      processPayloads c box
        (cells.flatMap (fun cl => (cellOutputs cl).flatMap outputCandidates)) := by
  induction cells with
  | nil => rfl
  | cons cell rest ih =>
      simp only [List.all_cons, Bool.and_eq_true] at h
      simp only [List.flatMap_cons, processCells, processPayloads_append,
        processCell_eq_candidates c box cell h.1, ih h.2]

/-- Claim C4: on a well-formed document, the thumbnail traversal processes
exactly the payloads described by the specification — display_data outputs
only, image/png or image/jpeg keys case-insensitively, single strings
normalized to one-element sequences — in cell order then output order. -/
theorem thumbs_considers_exactly_candidates {Img : Type} (c : Codec Img)
    (box : Nat × Nat) (j : JVal) (h : wfDoc j = true) :
    computeThumbs c box j = processPayloads c box (candidatePayloads j) := by
  cases j with
  | obj kvs =>
      simp only [computeThumbs, candidatePayloads]
      cases hc : dictGet kvs "cells" with
      | none => simp [wfDoc, hc] at h
      | some v =>
          cases v with
          | arr cells =>
              refine processCells_eq_candidates c box cells ?_
              simpa [wfDoc, hc] using h
          | null | bool b | num n | str s | obj o =>
              simp [wfDoc, hc] at h
  | null | bool b | num n | str s | arr xs => simp [wfDoc] at h

/-- Witness for C4: the mixed-case single-string document processes exactly
its two normalized candidate payloads. -/
theorem thumbs_considers_exactly_candidates_w :
    wfDoc (.obj [("cells", .arr
        [ mkCell [mkOutput "IMAGE/PNG" (.arr [.str "a", .str "b"])]
        , mkCell [mkOutput "text/plain" (.str "ignored")] ])]) = true ∧
    computeThumbs toyCodec (5, 5) (.obj [("cells", .arr
        [ mkCell [mkOutput "IMAGE/PNG" (.arr [.str "a", .str "b"])]
        , mkCell [mkOutput "text/plain" (.str "ignored")] ])]) =
      processPayloads toyCodec (5, 5) (candidatePayloads (.obj [("cells", .arr
        [ mkCell [mkOutput "IMAGE/PNG" (.arr [.str "a", .str "b"])]
        , mkCell [mkOutput "text/plain" (.str "ignored")] ])])) :=
  ⟨rfl, thumbs_considers_exactly_candidates toyCodec (5, 5) _ rfl⟩

/-- Witness for C10 at concrete mappings. -/
theorem cells_subscript_unguarded_w :
    metaCall toyCodec (.enabled (10, 10)) ⟨[], .ok (.obj [("metadata", .obj [])])⟩ "x" =
      .error (.keyError "cells") ∧
    processCell toyCodec (10, 10) (.obj [("source", .str "s")]) = .ok [] ∧
    processOutput toyCodec (10, 10) (.obj [("data", .obj [("image/png", .str "good")])]) =
      .ok [] ∧
    processOutput toyCodec (10, 10) (.obj [("output_type", .str "display_data")]) =
      .ok [] := by
  refine ⟨?w1, ?w2, ?w3, ?w4⟩
  case w1 =>
    exact cells_subscript_unguarded.1 Nat toyCodec (10, 10) _ "x" _ [] rfl rfl rfl
  case w2 =>
    exact cells_subscript_unguarded.2.1 Nat toyCodec (10, 10) _ rfl
  case w3 =>
    exact cells_subscript_unguarded.2.2.1 Nat toyCodec (10, 10) _ rfl
  case w4 =>
    exact cells_subscript_unguarded.2.2.2 Nat toyCodec (10, 10) _ rfl rfl

/-! The extract driver: record construction and generator behavior. -/

theorem buildRecordAux_lookup {ρ : Type} (nb : NB) (nm : String)
    (es : List (PyExtractor ρ)) (d : List (String × RecVal ρ))
    (hok : ∀ e ∈ es, exceptOk (e.call nb nm) = true)
    (hnd : (es.map PyExtractor.name).Nodup) :
    ∃ d2, buildRecordAux nb nm es d = .ok d2 ∧
      (∀ k, (∀ e ∈ es, e.name ≠ k) → dictGet d2 k = dictGet d k) ∧
      (∀ e ∈ es, dictGet d2 e.name = (exceptValue (e.call nb nm)).map Sum.inl) := by
  induction es generalizing d with
  | nil =>
      exact ⟨d, rfl, fun k _ => rfl, fun e he => absurd he (List.not_mem_nil e)⟩
  | cons e es ih =>
      have hoke : exceptOk (e.call nb nm) = true := hok e (List.mem_cons_self e es)
      cases hc : e.call nb nm with
      | error err => rw [hc] at hoke; simp [exceptOk] at hoke
      | ok r =>
          simp only [List.map_cons, List.nodup_cons] at hnd
          obtain ⟨d2, hrun, hpres, hlook⟩ :=
            ih (dictSet d e.name (Sum.inl r))
              (fun e2 he2 => hok e2 (List.mem_cons_of_mem e he2)) hnd.2
          refine ⟨d2, ?_, ?_, ?_⟩
          · simpa [buildRecordAux, hc] using hrun
          · intro k hk
            rw [hpres k fun e2 he2 => hk e2 (List.mem_cons_of_mem e he2),
              dictGet_dictSet_ne d e.name k (Sum.inl r)
                (Ne.symm (hk e (List.mem_cons_self e es)))]
          · intro e2 he2
            rcases List.mem_cons.mp he2 with rfl | he2
            · have hne : ∀ e3 ∈ es, e3.name ≠ e2.name := by
                intro e3 he3 heq
                exact hnd.1 (heq ▸ List.mem_map_of_mem PyExtractor.name he3)
              rw [hpres e2.name hne, dictGet_dictSet_self, hc]
              rfl
            · exact hlook e2 he2

theorem buildRecord_lookup {ρ : Type} (es : List (PyExtractor ρ)) (nb : NB) (nm : String)
    (hok : ∀ e ∈ es, exceptOk (e.call nb nm) = true)
    (hnd : (es.map PyExtractor.name).Nodup) :
    ∃ rec, buildRecord es nb nm = .ok rec ∧
      dictGet rec "name" = some (Sum.inr nm) ∧
      (∀ e ∈ es, e.name ≠ "name" →
        dictGet rec e.name = (exceptValue (e.call nb nm)).map Sum.inl) := by
  obtain ⟨d2, hrun, _, hlook⟩ := buildRecordAux_lookup nb nm es [] hok hnd
  refine ⟨dictSet d2 "name" (Sum.inr nm), ?_, dictGet_dictSet_self d2 "name" _, ?_⟩
  · simp [buildRecord, hrun]
  · intro e he hne
    rw [dictGet_dictSet_ne d2 "name" e.name (Sum.inr nm) hne]
    exact hlook e he

theorem extractGen_all_ok {ρ : Type} (es : List (PyExtractor ρ))
    (reader : List (NB × String))
    (hok : ∀ p ∈ reader, exceptOk (buildRecord es p.1 p.2) = true) :
    (extractGen es reader).2 = none ∧
    (extractGen es reader).1.map Except.ok =
      reader.map (fun p => buildRecord es p.1 p.2) := by
  induction reader with
  | nil => exact ⟨rfl, rfl⟩
  | cons p rest ih =>
      obtain ⟨nb, nm⟩ := p
      have hokp := hok (nb, nm) (List.mem_cons_self _ rest)
      cases hc : buildRecord es nb nm with
      | error err => rw [hc] at hokp; simp [exceptOk] at hokp
      | ok r =>
          obtain ⟨ih1, ih2⟩ := ih fun q hq => hok q (List.mem_cons_of_mem _ hq)
          constructor
          · simpa [extractGen, hc] using ih1
          · simpa [extractGen, hc] using ih2

/-- Claim C2: with every extractor succeeding on every document and distinct
extractor names, extract yields exactly one record per input pair in input
order; each record maps each extractor name to that extractor's result on a
fresh stream of the document, and the name key — set last, so it wins even
over an extractor literally named name — holds the document's name. -/
theorem extract_yields_merged_records {ρ : Type} (es : List (PyExtractor ρ))
    (reader : List (NB × String))
    (hok : ∀ e ∈ es, ∀ p ∈ reader, exceptOk (e.call p.1 p.2) = true)
    (hnd : (es.map PyExtractor.name).Nodup) :
    (extractGen es reader).2 = none ∧
    (extractGen es reader).1.map Except.ok =
      reader.map (fun p => buildRecord es p.1 p.2) ∧
    ∀ p ∈ reader, ∀ rec, buildRecord es p.1 p.2 = .ok rec →
      dictGet rec "name" = some (Sum.inr p.2) ∧
      ∀ e ∈ es, e.name ≠ "name" →
        dictGet rec e.name = (exceptValue (e.call p.1 p.2)).map Sum.inl := by
  have hbr : ∀ p ∈ reader, exceptOk (buildRecord es p.1 p.2) = true := by
    intro p hp
    obtain ⟨rec, hrec, _, _⟩ :=
      buildRecord_lookup es p.1 p.2 (fun e he => hok e he p hp) hnd
    simp [hrec, exceptOk]
  obtain ⟨h1, h2⟩ := extractGen_all_ok es reader hbr
  refine ⟨h1, h2, ?_⟩
  intro p hp rec hrec
  obtain ⟨rec2, hrec2, hname, hlook⟩ :=
    buildRecord_lookup es p.1 p.2 (fun e he => hok e he p hp) hnd
  rw [hrec] at hrec2
  cases hrec2
  exact ⟨hname, hlook⟩

/-- Witness for C2: the specification example — two documents named a and b
with one BlobExtractor — yields two records in order with the right keys. -/
theorem extract_yields_merged_records_w :
    (extractGen [mkBlobExtractor none] [(nbPlain, "a"), (nbOneImage, "b")]).2 = none ∧
    (extractGen [mkBlobExtractor none] [(nbPlain, "a"), (nbOneImage, "b")]).1.map
        Except.ok =
      [(nbPlain, "a"), (nbOneImage, "b")].map
        (fun p => buildRecord [mkBlobExtractor none] p.1 p.2) ∧
    dictGet [("BlobExtractor", Sum.inl [1, 2, 3]), ("name", Sum.inr "a")] "name" =
      some (Sum.inr "a") ∧
    dictGet [("BlobExtractor", Sum.inl [1, 2, 3]), ("name", Sum.inr "a")]
        "BlobExtractor" =
      (exceptValue (blobCall nbPlain "a")).map Sum.inl ∧
    dictGet [("BlobExtractor", Sum.inl [7]), ("name", Sum.inr "b")] "name" =
      some (Sum.inr "b") := by
  have hok : ∀ e ∈ [mkBlobExtractor none],
      ∀ p ∈ [(nbPlain, "a"), (nbOneImage, "b")], exceptOk (e.call p.1 p.2) = true := by
    intro e he p hp
    simp only [List.mem_singleton] at he
    subst he
    rfl
  have hnd : (([mkBlobExtractor none]).map PyExtractor.name).Nodup := by
    simp
  have h := extract_yields_merged_records [mkBlobExtractor none]
    [(nbPlain, "a"), (nbOneImage, "b")] hok hnd
  refine ⟨h.1, h.2.1, ?_, ?_, ?_⟩
  · exact (h.2.2 (nbPlain, "a") (List.mem_cons_self _ _)
      [("BlobExtractor", Sum.inl [1, 2, 3]), ("name", Sum.inr "a")] rfl).1
  · exact (h.2.2 (nbPlain, "a") (List.mem_cons_self _ _)
      [("BlobExtractor", Sum.inl [1, 2, 3]), ("name", Sum.inr "a")] rfl).2
      (mkBlobExtractor none) (List.mem_cons_self _ _) (by decide)
  · exact (h.2.2 (nbOneImage, "b")
      (List.mem_cons_of_mem _ (List.mem_cons_self _ _))
      [("BlobExtractor", Sum.inl [7]), ("name", Sum.inr "b")] rfl).1

theorem buildRecordAux_error {ρ : Type} (nb : NB) (nm : String)
    (es1 : List (PyExtractor ρ)) (e : PyExtractor ρ) (es2 : List (PyExtractor ρ))
    (d : List (String × RecVal ρ)) (err : PyErr)
    (hes1 : ∀ e1 ∈ es1, exceptOk (e1.call nb nm) = true)
    (hfail : e.call nb nm = .error err) :
    buildRecordAux nb nm (es1 ++ e :: es2) d = .error err := by
  induction es1 generalizing d with
  | nil => simp [buildRecordAux, hfail]
  | cons e1 rest ih =>
      have h1 := hes1 e1 (List.mem_cons_self e1 rest)
      cases hc : e1.call nb nm with
      | error er => rw [hc] at h1; simp [exceptOk] at h1
      | ok r =>
          simp only [List.cons_append, buildRecordAux, hc]
          exact ih _ fun e2 he2 => hes1 e2 (List.mem_cons_of_mem e1 he2)

theorem extractGen_stops_at_error {ρ : Type} (es : List (PyExtractor ρ))
    (pre post : List (NB × String)) (nb : NB) (nm : String) (err : PyErr)
    (hpre : ∀ p ∈ pre, exceptOk (buildRecord es p.1 p.2) = true)
    (hfail : buildRecord es nb nm = .error err) :
    (extractGen es (pre ++ (nb, nm) :: post)).2 = some err ∧
    (extractGen es (pre ++ (nb, nm) :: post)).1.map Except.ok =
      pre.map (fun p => buildRecord es p.1 p.2) := by
  induction pre with
  | nil => simp [extractGen, hfail]
  | cons p rest ih =>
      obtain ⟨nb1, nm1⟩ := p
      have h1 := hpre (nb1, nm1) (List.mem_cons_self _ rest)
      cases hc : buildRecord es nb1 nm1 with
      | error er => rw [hc] at h1; simp [exceptOk] at h1
      | ok r =>
          obtain ⟨ih1, ih2⟩ := ih fun q hq => hpre q (List.mem_cons_of_mem _ hq)
          constructor
          · simpa [extractGen, hc] using ih1
          · simpa [extractGen, hc] using ih2

/-- Claim C6: the driver performs no error recovery — when the extractors
before e succeed on a document but e raises, the whole record construction
returns exactly that error (no partial record), the generator's sequence
carries the records of the earlier documents only, and the exception is the
terminal outcome of the sequence. -/
theorem extractor_failure_aborts_document {ρ : Type}
    (es1 es2 : List (PyExtractor ρ)) (e : PyExtractor ρ)
    (pre post : List (NB × String)) (nb : NB) (nm : String) (err : PyErr)
    (hes1 : ∀ e1 ∈ es1, exceptOk (e1.call nb nm) = true)
    (hfail : e.call nb nm = .error err)
    (hpre : ∀ p ∈ pre, exceptOk (buildRecord (es1 ++ e :: es2) p.1 p.2) = true) :
    buildRecord (es1 ++ e :: es2) nb nm = .error err ∧
    (extractGen (es1 ++ e :: es2) (pre ++ (nb, nm) :: post)).2 = some err ∧
    (extractGen (es1 ++ e :: es2) (pre ++ (nb, nm) :: post)).1.map Except.ok =
      pre.map (fun p => buildRecord (es1 ++ e :: es2) p.1 p.2) ∧
    (extractGen (es1 ++ e :: es2) (pre ++ (nb, nm) :: post)).1.length = pre.length := by
  have hbr : buildRecord (es1 ++ e :: es2) nb nm = .error err := by
    simp [buildRecord, buildRecordAux_error nb nm es1 e es2 [] err hes1 hfail]
  obtain ⟨h1, h2⟩ := extractGen_stops_at_error (es1 ++ e :: es2) pre post nb nm err hpre hbr
  refine ⟨hbr, h1, h2, ?_⟩
  have := congrArg List.length h2
  simpa using this

/-- Witness for C6: a JSONExtractor raising on the malformed second document
terminates the sequence after the first record. -/
theorem extractor_failure_aborts_document_w :
    buildRecord [mkJSONExtractor none] nbMalformed "b" = .error .jsonDecodeError ∧
    (extractGen [mkJSONExtractor none]
        [(nbPlain, "a"), (nbMalformed, "b")]).2 = some .jsonDecodeError ∧
    (extractGen [mkJSONExtractor none]
        [(nbPlain, "a"), (nbMalformed, "b")]).1.length = 1 := by
  have h := extractor_failure_aborts_document [] [] (mkJSONExtractor none)
    [(nbPlain, "a")] [] nbMalformed "b" .jsonDecodeError
    (fun e1 he1 => absurd he1 (List.not_mem_nil e1)) rfl
    (by
      intro p hp
      simp only [List.mem_singleton] at hp
      subst hp
      rfl)
  exact ⟨h.1, h.2.1, h.2.2.2⟩

theorem genTake_ok_of_le {ρ : Type} (es : List (PyExtractor ρ)) (k : Nat)
    (pre tail : List (NB × String)) (hk : k ≤ pre.length)
    (hpre : ∀ p ∈ pre, exceptOk (buildRecord es p.1 p.2) = true) :
    exceptOk (genTake es k (pre ++ tail)) = true := by
  induction k generalizing pre with
  | zero => rfl
  | succ k ih =>
      cases pre with
      | nil => exact absurd hk (by simp)
      | cons p rest =>
          obtain ⟨nb1, nm1⟩ := p
          have h1 := hpre (nb1, nm1) (List.mem_cons_self _ rest)
          cases hc : buildRecord es nb1 nm1 with
          | error er => rw [hc] at h1; simp [exceptOk] at h1
          | ok r =>
              have ihr := ih rest (Nat.le_of_succ_le_succ hk)
                (fun q hq => hpre q (List.mem_cons_of_mem _ hq))
              cases ht : genTake es k (rest ++ tail) with
              | error er => rw [ht] at ihr; simp [exceptOk] at ihr
              | ok rs => simp [genTake, hc, ht, exceptOk]

theorem genTake_error_at {ρ : Type} (es : List (PyExtractor ρ))
    (pre post : List (NB × String)) (nb : NB) (nm : String) (err : PyErr)
    (hpre : ∀ p ∈ pre, exceptOk (buildRecord es p.1 p.2) = true)
    (hfail : buildRecord es nb nm = .error err) :
    genTake es (pre.length + 1) (pre ++ (nb, nm) :: post) = .error err := by
  induction pre with
  | nil => simp [genTake, hfail]
  | cons p rest ih =>
      obtain ⟨nb1, nm1⟩ := p
      have h1 := hpre (nb1, nm1) (List.mem_cons_self _ rest)
      cases hc : buildRecord es nb1 nm1 with
      | error er => rw [hc] at h1; simp [exceptOk] at h1
      | ok r =>
          have ihr := ih fun q hq => hpre q (List.mem_cons_of_mem _ hq)
          simp [genTake, hc, ihr]

/-- Claim C8: the sequence is lazy — requesting no elements runs no extractor
and raises nothing, consuming only the records before a failing document
succeeds, and the failing document's error surfaces exactly when its own
record is requested. -/
theorem error_surfaces_on_demand {ρ : Type} (es : List (PyExtractor ρ))
    (pre post : List (NB × String)) (nb : NB) (nm : String) (err : PyErr)
    (hpre : ∀ p ∈ pre, exceptOk (buildRecord es p.1 p.2) = true)
    (hfail : buildRecord es nb nm = .error err) :
    (∀ reader : List (NB × String), genTake es 0 reader = .ok []) ∧
    (∀ k, k ≤ pre.length →
      exceptOk (genTake es k (pre ++ (nb, nm) :: post)) = true) ∧
    genTake es (pre.length + 1) (pre ++ (nb, nm) :: post) = .error err := by
  refine ⟨fun reader => rfl, ?_, genTake_error_at es pre post nb nm err hpre hfail⟩
  intro k hk
  exact genTake_ok_of_le es k pre ((nb, nm) :: post) hk hpre

/-- Witness for C8: with a good document named a before a malformed document
named b, taking zero or one element succeeds and taking two surfaces the
parse error. -/
theorem error_surfaces_on_demand_w :
    genTake [mkJSONExtractor none] 0 [(nbPlain, "a"), (nbMalformed, "b")] = .ok [] ∧
    exceptOk (genTake [mkJSONExtractor none] 1 [(nbPlain, "a"), (nbMalformed, "b")]) =
      true ∧
    genTake [mkJSONExtractor none] 2 [(nbPlain, "a"), (nbMalformed, "b")] =
      .error .jsonDecodeError := by
  have h := error_surfaces_on_demand [mkJSONExtractor none] [(nbPlain, "a")] []
    nbMalformed "b" .jsonDecodeError
    (by
      intro p hp
      simp only [List.mem_singleton] at hp
      subst hp
      rfl)
    rfl
  exact ⟨h.1 _, h.2.1 1 (by decide), h.2.2⟩

/-- Claim C7: the extractor name is the construction-time override when one
is given and the implementing class name otherwise, and the record key used
by extract for an extractor's result is exactly that name. -/
theorem extractor_naming :
    (∀ n : String, (mkJSONExtractor (some n)).name = n) ∧
    (mkJSONExtractor none).name = "JSONExtractor" ∧
    (∀ (Img : Type) (c : Codec Img) (a : ThumbArg) (n : String),
        (mkMetadataExtractor c (some n) a).name = n) ∧
    (∀ (Img : Type) (c : Codec Img) (a : ThumbArg),
        (mkMetadataExtractor c none a).name = "MetadataExtractor") ∧
    (∀ n : String, (mkBlobExtractor (some n)).name = n) ∧
    (mkBlobExtractor none).name = "BlobExtractor" ∧
    (∀ (ρ : Type) (e : PyExtractor ρ) (nb : NB) (nm : String)
        (rec : List (String × RecVal ρ)),
        buildRecord [e] nb nm = .ok rec → e.name ≠ "name" →
        dictGet rec e.name = (exceptValue (e.call nb nm)).map Sum.inl) := by
  refine ⟨fun n => rfl, rfl, fun Img c a n => rfl, fun Img c a => rfl,
    fun n => rfl, rfl, ?_⟩
  intro ρ e nb nm rec hrec hne
  cases hc : e.call nb nm with
  | error err => simp [buildRecord, buildRecordAux, hc] at hrec
  | ok r =>
      simp only [buildRecord, buildRecordAux, hc] at hrec
      cases hrec
      rw [dictGet_dictSet_ne _ "name" e.name (Sum.inr nm) hne,
        dictGet_dictSet_self]
      rfl

/-- Witness for C7: an explicit override is the record key, not the class
name. -/
theorem extractor_naming_w :
    (mkBlobExtractor (some "override")).name = "override" ∧
    (mkBlobExtractor none).name = "BlobExtractor" ∧
    buildRecord [mkBlobExtractor (some "override")] nbPlain "a" =
      .ok [("override", Sum.inl [1, 2, 3]), ("name", Sum.inr "a")] ∧
    dictGet [("override", Sum.inl ([1, 2, 3] : List Nat)), ("name", Sum.inr "a")]
        "override" =
      (exceptValue ((mkBlobExtractor (some "override")).call nbPlain "a")).map
        Sum.inl := by
  refine ⟨extractor_naming.2.2.2.2.1 "override", extractor_naming.2.2.2.2.2.1, rfl, ?_⟩
  exact extractor_naming.2.2.2.2.2.2 (List Nat) (mkBlobExtractor (some "override"))
    nbPlain "a" [("override", Sum.inl [1, 2, 3]), ("name", Sum.inr "a")] rfl
    (by decide)

end Planetaryum
